import Mathlib

/-!
Shallow embedding of the ZomboDB query-DSL compiler
(`src/query_parser/dsl/mod.rs`): the expression-to-DSL translator
`expr_to_dsl`, the leaf term encoder `term_to_dsl`/`eq`, and the
join-folding loop of the `Expr::Linked` arm.

JSON values are modelled by the inductive `Json`; numbers (boosts,
fuzzy prefix lengths) are modelled as rationals, since the compiler
only moves them around and defaults absent boosts to `1.0` — it never
performs arithmetic on them.  Panics in the source are modelled by
`Except String`.
-/

/-- JSON values as produced by the compiler (`serde_json::Value`).
Objects keep their keys in insertion order. -/
inductive Json where
  | str : String → Json
  | num : Rat → Json
  | arr : List Json → Json
  | obj : List (String × Json) → Json
deriving Repr

/-- A qualified field reference; the compiler only ever consumes its
canonical backend field-name string (`QualifiedField::field_name`),
so the embedding carries exactly that. -/
structure QualifiedField where
  field_name : String
deriving Repr, DecidableEq

/-- `Term` — leaf value variants of the AST (`query_parser::ast::Term`). -/
inductive Term where
  | Null : Term
  | MatchAll : Term
  | String (s : String) (b : Option Rat)
  | Phrase (s : String) (b : Option Rat)
  | PhraseWithWildcard (s : String) (b : Option Rat)
  | Wildcard (w : String) (b : Option Rat)
  | Fuzzy (f : String) (d : Nat) (b : Option Rat)
  | Range (s : String) (e : String) (b : Option Rat)
  | Regex (r : String) (b : Option Rat)
  | ParsedArray (v : List Term) (b : Option Rat)
deriving Repr

/-- `IndexLink` — a join hop: target entity plus the joining field pair. -/
structure IndexLink where
  qualified_index : String
  left_field : String
  right_field : String
deriving Repr, DecidableEq

/-- Comparison opcodes handled by `term_to_dsl`; `MoreLikeThis` and
`FuzzyLikeThis` exist in the AST but are commented out in the encoder
(they hit the catch-all panic). -/
inductive ComparisonOpcode where
  | Contains | Eq | DoesNotContain | Ne | Regex
  | MoreLikeThis | FuzzyLikeThis
  | Gt | Lt | Gte | Lte
deriving Repr, DecidableEq

/-- `Expr` — the query AST (`query_parser::ast::Expr`). -/
inductive Expr where
  | WithList (v : List Expr)
  | AndList (v : List Expr)
  | OrList (v : List Expr)
  | Not (r : Expr)
  | Contains (f : QualifiedField) (t : Term)
  | Eq (f : QualifiedField) (t : Term)
  | DoesNotContain (f : QualifiedField) (t : Term)
  | Ne (f : QualifiedField) (t : Term)
  | Regex (f : QualifiedField) (t : Term)
  | Gt (f : QualifiedField) (t : Term)
  | Gte (f : QualifiedField) (t : Term)
  | Lt (f : QualifiedField) (t : Term)
  | Lte (f : QualifiedField) (t : Term)
  | Linked (i : IndexLink) (e : Expr)
deriving Repr

/-- Modelled from the spec: the external collaborators the compiler
calls but whose code is outside this module — `Expr::nested_path`
(AST module), `PathFinder::find_path` together with the topology
discovery feeding it, the catalog lookup
(`open_index`/`ZDBIndexOptions::index_name`, `none` = failed open),
`build_visibility_clause`, and the `ZDB_IGNORE_VISIBILITY` flag. -/
structure Env where
  nested_path : List Expr → Option String
  find_path : IndexLink → String → Option (List IndexLink)
  index_name : IndexLink → Option String
  build_visibility_clause : String → Json
  ignore_visibility : Bool

/-- `fn range(term) -> (&str, &Option<f32>)` — requires a `Term::String`
carrying the bound value and optional boost; anything else panics
("invalid term type for a range"). -/
def range (term : Term) : Except String (String × Option Rat) :=
  match term with
  | Term.String s b => Except.ok (s, b)
  | _ => Except.error "invalid term type for a range"

/-- `fn regex(field, term)` — requires a `Term::Regex`, emitting a regex
leaf with value and boost (default `1.0`); anything else panics. -/
def regex (field : QualifiedField) (term : Term) : Except String Json :=
  match term with
  | Term.Regex r b =>
      Except.ok (Json.obj [("regex", Json.obj [(field.field_name,
        Json.obj [("value", Json.str r), ("boost", Json.num (b.getD 1))])])])
  | _ => Except.error "unsupported term for a regex query"

mutual

/-- `fn eq(field, term)` — equality encoding of a single term. -/
def eq (field : QualifiedField) (term : Term) : Except String Json :=
  match term with
  | Term.Null =>
      Except.ok (Json.obj [("bool", Json.obj [("must_not",
        Json.arr [Json.obj [("exists", Json.obj [("field", Json.str field.field_name)])]])])])
  | Term.MatchAll =>
      Except.ok (Json.obj [("exists", Json.obj [("field", Json.str field.field_name)])])
  | Term.String s b =>
      Except.ok (Json.obj [("term", Json.obj [(field.field_name,
        Json.obj [("value", Json.str s), ("boost", Json.num (b.getD 1))])])])
  | Term.Phrase s b =>
      Except.ok (Json.obj [("match_phrase", Json.obj [(field.field_name,
        Json.obj [("query", Json.str s), ("boost", Json.num (b.getD 1))])])])
  | Term.PhraseWithWildcard s b =>
      if s.data.getLast? = some '*'
          ∧ (s.data.filter (fun c => c = '*')).length = 1
          ∧ (s.data.filter (fun c => c = '?')).length = 0
      then
        Except.ok (Json.obj [("match_phrase_prefix", Json.obj [(field.field_name,
          Json.obj [("query", Json.str (s.dropRight 1)), ("boost", Json.num (b.getD 1))])])])
      else
        Except.error "phrases with non-right-truncated wildcards not supported yet"
  | Term.Wildcard w b =>
      Except.ok (Json.obj [("wildcard", Json.obj [(field.field_name,
        Json.obj [("value", Json.str w), ("boost", Json.num (b.getD 1))])])])
  | Term.Fuzzy f d b =>
      Except.ok (Json.obj [("fuzzy", Json.obj [(field.field_name,
        Json.obj [("value", Json.str f), ("prefix_length", Json.num d),
          ("boost", Json.num (b.getD 1))])])])
  | Term.Range s e b =>
      Except.ok (Json.obj [("range", Json.obj [(field.field_name,
        Json.obj [("gte", Json.str s), ("lte", Json.str e), ("boost", Json.num (b.getD 1))])])])
  | Term.ParsedArray v _b => do
      let (strings, clauses0) ← parsedArrayMembers field v
      let clauses :=
        if strings.isEmpty then clauses0
        else clauses0 ++
          [Json.obj [("terms", Json.obj [(field.field_name, Json.arr (strings.map Json.str))])]]
      match clauses with
      | [c] => Except.ok c
      | _ => Except.ok (Json.obj [("bool", Json.obj [("should", Json.arr clauses)])])
  | _ => Except.error "unsupported Term"

/-- The member loop of the `Term::ParsedArray` arm of `eq`: collects the
values of plain-`String` members into `strings` and the `eq`-encodings of
`Phrase`/`PhraseWithWildcard`/`Wildcard`/`Regex`/`Fuzzy` members into
`clauses`, in iteration order; any other member kind panics
("unsupported term in an array"). -/
def parsedArrayMembers (field : QualifiedField) :
    List Term → Except String (List String × List Json)
  | [] => Except.ok ([], [])
  | Term.String s _b :: ts => do
      let (ss, cs) ← parsedArrayMembers field ts
      Except.ok (s :: ss, cs)
  | Term.Phrase s b :: ts => do
      let c ← eq field (Term.Phrase s b)
      let (ss, cs) ← parsedArrayMembers field ts
      Except.ok (ss, c :: cs)
  | Term.PhraseWithWildcard s b :: ts => do
      let c ← eq field (Term.PhraseWithWildcard s b)
      let (ss, cs) ← parsedArrayMembers field ts
      Except.ok (ss, c :: cs)
  | Term.Wildcard w b :: ts => do
      let c ← eq field (Term.Wildcard w b)
      let (ss, cs) ← parsedArrayMembers field ts
      Except.ok (ss, c :: cs)
  | Term.Regex r b :: ts => do
      let c ← eq field (Term.Regex r b)
      let (ss, cs) ← parsedArrayMembers field ts
      Except.ok (ss, c :: cs)
  | Term.Fuzzy f d b :: ts => do
      let c ← eq field (Term.Fuzzy f d b)
      let (ss, cs) ← parsedArrayMembers field ts
      Except.ok (ss, c :: cs)
  | _ :: _ => Except.error "unsupported term in an array"

end

/-- `pub fn term_to_dsl(field, term, opcode)` — opcode-driven dispatch. -/
def term_to_dsl (field : QualifiedField) (term : Term) (opcode : ComparisonOpcode) :
    Except String Json :=
  match opcode with
  | ComparisonOpcode.Contains | ComparisonOpcode.Eq => eq field term
  | ComparisonOpcode.DoesNotContain | ComparisonOpcode.Ne => do
      let e ← eq field term
      Except.ok (Json.obj [("bool", Json.obj [("must_not", Json.arr [e])])])
  | ComparisonOpcode.Regex => regex field term
  | ComparisonOpcode.Gt => do
      let (v, b) ← range term
      Except.ok (Json.obj [("range", Json.obj [(field.field_name,
        Json.obj [("gt", Json.str v), ("boost", Json.num (b.getD 1))])])])
  | ComparisonOpcode.Lt => do
      let (v, b) ← range term
      Except.ok (Json.obj [("range", Json.obj [(field.field_name,
        Json.obj [("lt", Json.str v), ("boost", Json.num (b.getD 1))])])])
  | ComparisonOpcode.Gte => do
      let (v, b) ← range term
      Except.ok (Json.obj [("range", Json.obj [(field.field_name,
        Json.obj [("gte", Json.str v), ("boost", Json.num (b.getD 1))])])])
  | ComparisonOpcode.Lte => do
      let (v, b) ← range term
      Except.ok (Json.obj [("range", Json.obj [(field.field_name,
        Json.obj [("lte", Json.str v), ("boost", Json.num (b.getD 1))])])])
  | _ => Except.error "unsupported opcode"

/-- One iteration of the `while let Some(path) = paths.pop()` loop of the
`Expr::Linked` arm: resolve the hop's index name, wrap `current` with the
visibility filter unless `ZDB_IGNORE_VISIBILITY` is set, then wrap in a
`subselect` container. -/
def wrapHop (env : Env) (current : Json) (path : IndexLink) : Except String Json :=
  match env.index_name path with
  | none => Except.error "failed to open index"
  | some name =>
      let query :=
        if env.ignore_visibility then current
        else Json.obj [("bool", Json.obj
          [("must", Json.arr [current]),
           ("filter", Json.arr [env.build_visibility_clause name])])]
      Except.ok (Json.obj [("subselect", Json.obj
        [("index", Json.str name),
         ("type", Json.str "_doc"),
         ("left_fieldname", Json.str path.left_field),
         ("right_fieldname", Json.str path.right_field),
         ("query", query)])])

/-- The whole `while let Some(path) = paths.pop()` loop: hops are popped
from the target end of the path back toward the root, each wrapping the
accumulated query via `wrapHop`. -/
def foldPath (env : Env) (paths : List IndexLink) (current : Json) : Except String Json :=
  paths.reverse.foldlM (wrapHop env) current

mutual

/-- `pub fn expr_to_dsl(root, expr)` — the recursive expression compiler. -/
def expr_to_dsl (env : Env) (root : IndexLink) : Expr → Except String Json
  | Expr.WithList v =>
      match env.nested_path v with
      | some path => do
          let dsl ← exprList env root v
          Except.ok (Json.obj [("nested", Json.obj
            [("path", Json.str path),
             ("query", Json.obj [("bool", Json.obj [("must", Json.arr dsl)])])])])
      | none => Except.error "could not determine nested path"
  | Expr.AndList v => do
      let dsl ← exprList env root v
      Except.ok (Json.obj [("bool", Json.obj [("must", Json.arr dsl)])])
  | Expr.OrList v => do
      let dsl ← exprList env root v
      Except.ok (Json.obj [("bool", Json.obj [("should", Json.arr dsl)])])
  | Expr.Not r => do
      let r ← expr_to_dsl env root r
      Except.ok (Json.obj [("bool", Json.obj [("must_not", Json.arr [r])])])
  | Expr.Contains f t => term_to_dsl f t ComparisonOpcode.Contains
  | Expr.Eq f t => term_to_dsl f t ComparisonOpcode.Contains
  | Expr.DoesNotContain f t => term_to_dsl f t ComparisonOpcode.DoesNotContain
  | Expr.Ne f t => term_to_dsl f t ComparisonOpcode.DoesNotContain
  | Expr.Regex f t => term_to_dsl f t ComparisonOpcode.Regex
  | Expr.Gt f t => term_to_dsl f t ComparisonOpcode.Gt
  | Expr.Gte f t => term_to_dsl f t ComparisonOpcode.Gte
  | Expr.Lt f t => term_to_dsl f t ComparisonOpcode.Lt
  | Expr.Lte f t => term_to_dsl f t ComparisonOpcode.Lte
  | Expr.Linked i e =>
      match env.find_path root i.qualified_index with
      | none => Except.error ("no index link path to " ++ i.qualified_index)
      | some paths => do
          let current ← expr_to_dsl env root e
          foldPath env paths current

/-- The `v.iter().map(|v| expr_to_dsl(root, v)).collect()` pattern of the
list arms of `expr_to_dsl` (a panic in any child aborts the whole list). -/
def exprList (env : Env) (root : IndexLink) : List Expr → Except String (List Json)
  | [] => Except.ok []
  | e :: es => do
      let j ← expr_to_dsl env root e
      let js ← exprList env root es
      Except.ok (j :: js)

end

/-! ## Concrete test fixtures used by witnesses and counterexamples -/

/-- A concrete field, canonical backend name `"f"`. -/
def qf : QualifiedField := ⟨"f"⟩

/-- The root entity link (a self-link, as built by `IndexLink::from_relation`). -/
def rootLink : IndexLink := ⟨"a", "id", "id"⟩

/-- A one-hop link from the root entity `a` to entity `b`. -/
def linkB : IndexLink := ⟨"b", "a_id", "b_id"⟩

/-- The link reaching entity `c` when starting from root `a`. -/
def linkCfromA : IndexLink := ⟨"c", "a_id", "c_id"⟩

/-- The link reaching entity `c` when starting from entity `b`:
same target, different join fields than `linkCfromA`. -/
def linkCfromB : IndexLink := ⟨"c", "b_id", "c_id"⟩

/-- A concrete collaborator environment over the topology
`a → b`, `a → c` (via `a_id`), `b → c` (via `b_id`); visibility
filtering disabled (`ZDB_IGNORE_VISIBILITY` set). -/
def env0 : Env where
  nested_path := fun _ => none
  find_path := fun r t =>
    if r == rootLink && t == "a" then some []
    else if r == rootLink && t == "b" then some [linkB]
    else if r == rootLink && t == "c" then some [linkCfromA]
    else if r == linkB && t == "c" then some [linkCfromB]
    else none
  index_name := fun l => some l.qualified_index
  build_visibility_clause := fun n => Json.obj [("vis", Json.str n)]
  ignore_visibility := true

/-- The same environment with visibility filtering enabled. -/
def envVis : Env := { env0 with ignore_visibility := false }


/-! ## Helper observations on `Json` values -/

/-- Key lookup in a JSON object (first occurrence); `none` on non-objects. -/
def Json.lookup (j : Json) (k : String) : Option Json :=
  match j with
  | Json.obj l => List.lookup k l
  | _ => none

/-- The string payload of a JSON string, if any. -/
def Json.asStr : Json → Option String
  | Json.str s => some s
  | _ => none

/-- The `left_fieldname` of the subselect clause nested inside the query
of an outer subselect clause — the join binding of the innermost hop of a
two-level join. -/
def innerLeftField (x : Except String Json) : Option String :=
  match x with
  | Except.ok j =>
      ((((j.lookup "subselect").bind (fun o => o.lookup "query")).bind
          (fun o => o.lookup "subselect")).bind
        (fun o => o.lookup "left_fieldname")).bind Json.asStr
  | Except.error _ => none

mutual

/-- The values of every `"boost"` key occurring anywhere in a JSON tree,
in document order. -/
def boostValues : Json → List Json
  | Json.str _ => []
  | Json.num _ => []
  | Json.arr l => boostValuesArr l
  | Json.obj l => boostValuesObj l

/-- `boostValues` over the elements of a JSON array. -/
def boostValuesArr : List Json → List Json
  | [] => []
  | j :: js => boostValues j ++ boostValuesArr js

/-- `boostValues` over the entries of a JSON object. -/
def boostValuesObj : List (String × Json) → List Json
  | [] => []
  | (k, j) :: js => (if k = "boost" then [j] else []) ++ boostValues j ++ boostValuesObj js

end

/-! ## Claims -/

/-- C7: when the path resolver returns an empty path for a `Linked` node
(the link's entity equals the root entity), the compiled output is
identical to compiling the child directly against the root: no subselect
wrapper and no visibility wrapper is added. -/
theorem c7_empty_path_identity (env : Env) (root : IndexLink) (i : IndexLink) (e : Expr)
    (h : env.find_path root i.qualified_index = some []) :
    expr_to_dsl env root (Expr.Linked i e) = expr_to_dsl env root e := by
  cases he : expr_to_dsl env root e <;>
    simp [expr_to_dsl, h, he, foldPath]

/-- Witness for C7 at a concrete input: a self-`Linked` node over the
root entity compiles exactly like its child. -/
theorem c7_witness :
    env0.find_path rootLink rootLink.qualified_index = some [] ∧
    expr_to_dsl env0 rootLink (Expr.Linked rootLink (Expr.Eq qf Term.MatchAll))
      = expr_to_dsl env0 rootLink (Expr.Eq qf Term.MatchAll) :=
  ⟨rfl, c7_empty_path_identity env0 rootLink rootLink (Expr.Eq qf Term.MatchAll) rfl⟩

/-- C8: `DoesNotContain` and `Ne` compile to the equality encoding of the
same field and term wrapped in a boolean `must_not` container holding
exactly one element, and `Contains` and `Eq` compile to identical outputs
(the plain equality encoding). -/
theorem c8_negation_wrap_and_synonyms (env : Env) (root : IndexLink)
    (f : QualifiedField) (t : Term) :
    expr_to_dsl env root (Expr.DoesNotContain f t)
        = Except.map (fun j => Json.obj [("bool", Json.obj [("must_not", Json.arr [j])])])
            (eq f t)
      ∧ expr_to_dsl env root (Expr.Ne f t) = expr_to_dsl env root (Expr.DoesNotContain f t)
      ∧ expr_to_dsl env root (Expr.Contains f t) = eq f t
      ∧ expr_to_dsl env root (Expr.Eq f t) = expr_to_dsl env root (Expr.Contains f t) := by
  refine ⟨?_, rfl, rfl, rfl⟩
  cases he : eq f t <;>
    simp [expr_to_dsl, term_to_dsl, he, Except.map, Bind.bind, Except.bind]

/-- Helper for C9: a successful `exprList` run has one output clause per
input child, in order, each equal to the compilation of that child. -/
theorem exprList_ok (env : Env) (root : IndexLink) :
    ∀ (v : List Expr) (l : List Json), exprList env root v = Except.ok l →
      l.length = v.length ∧
      ∀ n (h1 : n < v.length) (h2 : n < l.length),
        expr_to_dsl env root (v.get ⟨n, h1⟩) = Except.ok (l.get ⟨n, h2⟩) := by
  intro v
  induction v with
  | nil =>
      intro l h
      simp [exprList] at h
      subst h
      exact ⟨rfl, fun n h1 h2 => absurd h1 (by simp)⟩
  | cons e es ih =>
      intro l h
      rw [exprList] at h
      cases he : expr_to_dsl env root e with
      | error m => rw [he] at h; simp [Bind.bind, Except.bind] at h
      | ok j =>
          rw [he] at h
          cases hes : exprList env root es with
          | error m => rw [hes] at h; simp [Bind.bind, Except.bind] at h
          | ok js =>
              rw [hes] at h
              simp [Bind.bind, Except.bind, Pure.pure, Except.pure] at h
              subst h
              obtain ⟨hlen, hget⟩ := ih js hes
              refine ⟨by simp [hlen], ?_⟩
              intro n h1 h2
              cases n with
              | zero => simpa using he
              | succ m =>
                  simpa using hget m (by simpa using h1) (by simpa using h2)

/-- C9: `AndList` compiles to a boolean `must` container and `OrList` to a
boolean `should` container over the compiled children, and a successful
child-list compilation has exactly one clause per child with the i-th
clause equal to the compilation of the i-th child (order preserved). -/
theorem c9_bool_lists (env : Env) (root : IndexLink) (v : List Expr) (l : List Json) :
    expr_to_dsl env root (Expr.AndList v)
        = Except.map (fun dsl => Json.obj [("bool", Json.obj [("must", Json.arr dsl)])])
            (exprList env root v)
      ∧ expr_to_dsl env root (Expr.OrList v)
        = Except.map (fun dsl => Json.obj [("bool", Json.obj [("should", Json.arr dsl)])])
            (exprList env root v)
      ∧ (exprList env root v = Except.ok l →
          l.length = v.length ∧
          ∀ n (h1 : n < v.length) (h2 : n < l.length),
            expr_to_dsl env root (v.get ⟨n, h1⟩) = Except.ok (l.get ⟨n, h2⟩)) := by
  refine ⟨?_, ?_, exprList_ok env root v l⟩ <;>
    cases hv : exprList env root v <;>
      simp [expr_to_dsl, hv, Except.map, Bind.bind, Except.bind]

/-- Witness for C9 at a concrete input: a one-child `AndList` yields a
one-clause output list. -/
theorem c9_witness :
    ([Json.obj [("exists", Json.obj [("field", Json.str "f")])]] : List Json).length
      = ([Expr.Eq qf Term.MatchAll] : List Expr).length :=
  ((c9_bool_lists env0 rootLink [Expr.Eq qf Term.MatchAll]
      [Json.obj [("exists", Json.obj [("field", Json.str "f")])]]).2.2 rfl).1

/-- C4: join folding processes the hop at the target end of the path
first (popping from the end), and each hop — when its catalog lookup
succeeds — wraps the accumulated query in a `subselect` container
carrying the hop's index name, type `"_doc"`, `left_fieldname` and
`right_fieldname`; the query inside is the accumulated query wrapped as a
boolean `must` + visibility-`filter` container unless the
visibility-disable flag is set, in which case the unwrapped query sits
directly inside the subselect. -/
theorem c4_hop_wrapping (env : Env) :
    (∀ (hops : List IndexLink) (hop : IndexLink) (q : Json),
        foldPath env (hops ++ [hop]) q
          = Except.bind (wrapHop env q hop) (foldPath env hops))
    ∧ (∀ (hop : IndexLink) (q : Json) (n : String),
        env.index_name hop = some n →
        wrapHop env q hop = Except.ok (Json.obj [("subselect", Json.obj
          [("index", Json.str n),
           ("type", Json.str "_doc"),
           ("left_fieldname", Json.str hop.left_field),
           ("right_fieldname", Json.str hop.right_field),
           ("query",
            if env.ignore_visibility then q
            else Json.obj [("bool", Json.obj
              [("must", Json.arr [q]),
               ("filter", Json.arr [env.build_visibility_clause n])])])])])) := by
  constructor
  · intro hops hop q
    cases hw : wrapHop env q hop <;>
      simp [foldPath, List.reverse_append, List.foldlM_cons, hw, Bind.bind, Except.bind]
  · intro hop q n h
    simp [wrapHop, h]

/-- Witness for C4 at a concrete input, with visibility filtering
enabled: the hop to entity `b` wraps the query under `must` with the
visibility clause under `filter`, inside the subselect container. -/
theorem c4_witness :
    envVis.index_name linkB = some "b" ∧
    wrapHop envVis (Json.str "q") linkB = Except.ok (Json.obj [("subselect", Json.obj
      [("index", Json.str "b"),
       ("type", Json.str "_doc"),
       ("left_fieldname", Json.str "a_id"),
       ("right_fieldname", Json.str "b_id"),
       ("query", Json.obj [("bool", Json.obj
         [("must", Json.arr [Json.str "q"]),
          ("filter", Json.arr [Json.obj [("vis", Json.str "b")]])])])])]) :=
  ⟨rfl, (c4_hop_wrapping envVis).2 linkB (Json.str "q") "b" rfl⟩

/-- C1 counterexample: the code compiles the `Linked` child against the
*original root*, not against the target link.  Over the topology of
`env0`, folding the query for `Linked(b, Linked(c, f:*))` from root `a`
uses the `a → c` join fields for the inner hop (`left_fieldname "a_id"`),
whereas the claim's reading — child compiled with the target link `b` as
root — would use the `b → c` join fields (`left_fieldname "b_id"`). -/
theorem c1_counterexample :
    expr_to_dsl env0 rootLink
        (Expr.Linked linkB (Expr.Linked linkCfromA (Expr.Eq qf Term.MatchAll)))
      ≠ Except.bind (expr_to_dsl env0 linkB
          (Expr.Linked linkCfromA (Expr.Eq qf Term.MatchAll)))
          (foldPath env0 [linkB]) := by
  intro h
  have ha : innerLeftField (expr_to_dsl env0 rootLink
      (Expr.Linked linkB (Expr.Linked linkCfromA (Expr.Eq qf Term.MatchAll))))
      = some "a_id" := rfl
  have hb : innerLeftField (Except.bind (expr_to_dsl env0 linkB
      (Expr.Linked linkCfromA (Expr.Eq qf Term.MatchAll)))
      (foldPath env0 [linkB]))
      = some "b_id" := rfl
  rw [h, hb] at ha
  exact absurd (Option.some.inj ha) (by decide)

/-- C1 (amended): for a `Linked(targetLink, child)` node whose resolved
path has at least one hop, the folded result is the path fold applied to
the child compiled against the *original root* — the root, not the target
link, is passed as the root argument of the recursive compilation. -/
theorem c1_amended_child_against_root (env : Env) (root i : IndexLink) (e : Expr)
    (hops : List IndexLink) (h : env.find_path root i.qualified_index = some hops)
    (_hne : hops ≠ []) :
    expr_to_dsl env root (Expr.Linked i e)
      = Except.bind (expr_to_dsl env root e) (foldPath env hops) := by
  cases he : expr_to_dsl env root e <;>
    simp [expr_to_dsl, h, he, Bind.bind, Except.bind]

/-- Witness for the amended C1 at a concrete input: a one-hop `Linked`
node folds the child compiled against the original root. -/
theorem c1_amended_witness :
    env0.find_path rootLink linkB.qualified_index = some [linkB] ∧
    ([linkB] : List IndexLink) ≠ [] ∧
    expr_to_dsl env0 rootLink (Expr.Linked linkB (Expr.Eq qf Term.MatchAll))
      = Except.bind (expr_to_dsl env0 rootLink (Expr.Eq qf Term.MatchAll))
          (foldPath env0 [linkB]) :=
  ⟨rfl, by decide,
    c1_amended_child_against_root env0 rootLink linkB (Expr.Eq qf Term.MatchAll)
      [linkB] rfl (by decide)⟩

/-- C5: equality encoding of `PhraseWithWildcard(s, b)` succeeds exactly
when `s` ends with `'*'`, contains exactly one `'*'` and no `'?'`; on
success it emits a `match_phrase_prefix` leaf whose query string is `s`
with the trailing `'*'` stripped, and otherwise it fails fatally with the
unsupported-construct condition. -/
theorem c5_phrase_with_wildcard (f : QualifiedField) (s : String) (b : Option Rat) :
    ((s.data.getLast? = some '*'
        ∧ (s.data.filter (fun c => c = '*')).length = 1
        ∧ (s.data.filter (fun c => c = '?')).length = 0) →
      eq f (Term.PhraseWithWildcard s b)
        = Except.ok (Json.obj [("match_phrase_prefix", Json.obj [(f.field_name,
            Json.obj [("query", Json.str (s.dropRight 1)),
              ("boost", Json.num (b.getD 1))])])]))
    ∧ (¬ (s.data.getLast? = some '*'
        ∧ (s.data.filter (fun c => c = '*')).length = 1
        ∧ (s.data.filter (fun c => c = '?')).length = 0) →
      eq f (Term.PhraseWithWildcard s b)
        = Except.error "phrases with non-right-truncated wildcards not supported yet") := by
  constructor <;> intro h <;> simp only [eq]
  · rw [if_pos h]
  · rw [if_neg h]

/-- Witness for C5 at concrete inputs: `"foo*"` compiles to a
phrase-prefix leaf on `"foo"`; `"f*o*"` fails with the
unsupported-construct error. -/
theorem c5_witness :
    eq qf (Term.PhraseWithWildcard "foo*" none)
        = Except.ok (Json.obj [("match_phrase_prefix", Json.obj [("f",
            Json.obj [("query", Json.str "foo"), ("boost", Json.num 1)])])])
    ∧ eq qf (Term.PhraseWithWildcard "f*o*" none)
        = Except.error "phrases with non-right-truncated wildcards not supported yet" :=
  ⟨(c5_phrase_with_wildcard qf "foo*" none).1 (by decide),
   (c5_phrase_with_wildcard qf "f*o*" none).2 (by decide)⟩

/-- The JSON bound key each range opcode emits. -/
def rangeBoundKey : ComparisonOpcode → String
  | ComparisonOpcode.Gt => "gt"
  | ComparisonOpcode.Gte => "gte"
  | ComparisonOpcode.Lt => "lt"
  | ComparisonOpcode.Lte => "lte"
  | _ => ""

/-- C6: for each of the opcodes `Gt`, `Gte`, `Lt`, `Lte`, term encoding
succeeds on a `Term::String`, emitting a range leaf with only the single
matching bound key, the string value, and boost defaulting to `1.0`;
every other term kind fails fatally with the range mismatch error. -/
theorem c6_range_opcodes (f : QualifiedField) (v : String) (b : Option Rat)
    (t : Term) (op : ComparisonOpcode)
    (hop : op = ComparisonOpcode.Gt ∨ op = ComparisonOpcode.Gte
      ∨ op = ComparisonOpcode.Lt ∨ op = ComparisonOpcode.Lte) :
    term_to_dsl f (Term.String v b) op
        = Except.ok (Json.obj [("range", Json.obj [(f.field_name,
            Json.obj [(rangeBoundKey op, Json.str v),
              ("boost", Json.num (b.getD 1))])])])
    ∧ ((∀ s bb, t ≠ Term.String s bb) →
        term_to_dsl f t op = Except.error "invalid term type for a range") := by
  constructor
  · rcases hop with h | h | h | h <;> subst h <;> rfl
  · intro ht
    have hr : range t = Except.error "invalid term type for a range" := by
      cases t <;> first | rfl | exact absurd rfl (ht _ _)
    rcases hop with h | h | h | h <;> subst h <;>
      simp [term_to_dsl, hr, Bind.bind, Except.bind]

/-- Witness for C6 at concrete inputs: `Gt` on a string term with no
boost yields a range leaf with only the `gt` bound and boost `1.0`;
`Gt` on a `Null` term fails with the mismatch error. -/
theorem c6_witness :
    term_to_dsl qf (Term.String "5" none) ComparisonOpcode.Gt
        = Except.ok (Json.obj [("range", Json.obj [("f",
            Json.obj [("gt", Json.str "5"), ("boost", Json.num 1)])])])
    ∧ term_to_dsl qf Term.Null ComparisonOpcode.Gt
        = Except.error "invalid term type for a range" :=
  ⟨(c6_range_opcodes qf "5" none Term.Null ComparisonOpcode.Gt (Or.inl rfl)).1,
   (c6_range_opcodes qf "5" none Term.Null ComparisonOpcode.Gt (Or.inl rfl)).2
      (fun _ _ h => Term.noConfusion h)⟩

/-- C2 counterexample: the collapsed `terms` leaf of a `ParsedArray`
carries no `boost` key at all (the array's boost is discarded), so "the
emitted JSON always contains a boost key" fails on it: an all-string
array with absent boost compiles to a bare `terms` leaf whose tree
contains zero `boost` keys. -/
theorem c2_counterexample :
    eq qf (Term.ParsedArray [Term.String "a" none] none)
        = Except.ok (Json.obj [("terms", Json.obj [("f", Json.arr [Json.str "a"])])])
    ∧ boostValues (Json.obj [("terms", Json.obj [("f", Json.arr [Json.str "a"])])]) = [] :=
  ⟨rfl, rfl⟩

/-- C2 (amended): for every leaf encoding whose backend leaf type defines
a boost — `term`, `match_phrase`, `match_phrase_prefix`, `wildcard`,
`fuzzy`, `range` (both the inclusive range term and the single-bound
range opcodes) and `regex`, but *not* the collapsed `terms` leaf of a
`ParsedArray`, which carries no boost key — the emitted JSON always
contains exactly one `boost` key, equal to the term's boost when present
and exactly `1.0` when absent. -/
theorem c2_amended_boost_defaults (f : QualifiedField) (s t : String) (d : Nat)
    (b : Option Rat) (hf : f.field_name ≠ "boost") :
    (eq f (Term.String s b)).map boostValues = Except.ok [Json.num (b.getD 1)]
    ∧ (eq f (Term.Phrase s b)).map boostValues = Except.ok [Json.num (b.getD 1)]
    ∧ (∀ j, eq f (Term.PhraseWithWildcard s b) = Except.ok j →
        boostValues j = [Json.num (b.getD 1)])
    ∧ (eq f (Term.Wildcard s b)).map boostValues = Except.ok [Json.num (b.getD 1)]
    ∧ (eq f (Term.Fuzzy s d b)).map boostValues = Except.ok [Json.num (b.getD 1)]
    ∧ (eq f (Term.Range s t b)).map boostValues = Except.ok [Json.num (b.getD 1)]
    ∧ (regex f (Term.Regex s b)).map boostValues = Except.ok [Json.num (b.getD 1)]
    ∧ (term_to_dsl f (Term.String s b) ComparisonOpcode.Gt).map boostValues
        = Except.ok [Json.num (b.getD 1)]
    ∧ (term_to_dsl f (Term.String s b) ComparisonOpcode.Gte).map boostValues
        = Except.ok [Json.num (b.getD 1)]
    ∧ (term_to_dsl f (Term.String s b) ComparisonOpcode.Lt).map boostValues
        = Except.ok [Json.num (b.getD 1)]
    ∧ (term_to_dsl f (Term.String s b) ComparisonOpcode.Lte).map boostValues
        = Except.ok [Json.num (b.getD 1)] := by
  refine ⟨?_, ?_, ?_, ?_, ?_, ?_, ?_, ?_, ?_, ?_, ?_⟩
  case refine_3 =>
    intro j h
    simp only [eq] at h
    split at h
    · injection h with h
      subst h
      simp [boostValues, boostValuesObj, boostValuesArr, hf]
    · exact Except.noConfusion h
  all_goals
    simp [eq, regex, term_to_dsl, range, Except.map,
      boostValues, boostValuesObj, boostValuesArr, hf, Bind.bind, Except.bind]

/-- Witness for the amended C2 at concrete inputs: an exact-term leaf on
field `"f"` with absent boost has exactly one boost key equal to `1.0`,
and with a supplied boost of `2.0` exactly one boost key equal to `2.0`. -/
theorem c2_amended_witness :
    qf.field_name ≠ "boost"
    ∧ (eq qf (Term.String "x" none)).map boostValues = Except.ok [Json.num 1]
    ∧ (eq qf (Term.String "x" (some 2))).map boostValues = Except.ok [Json.num 2] :=
  ⟨by decide,
   (c2_amended_boost_defaults qf "x" "y" 2 none (by decide)).1,
   (c2_amended_boost_defaults qf "x" "y" 2 (some 2) (by decide)).1⟩

/-- Helper for C3: an all-string member list collects exactly the string
values, in order, and produces no individual clauses. -/
theorem parsedArrayMembers_strings (f : QualifiedField) :
    ∀ (ps : List (String × Option Rat)),
      parsedArrayMembers f (ps.map (fun p => Term.String p.1 p.2))
        = Except.ok (ps.map (fun p => p.1), []) := by
  intro ps
  induction ps with
  | nil => rfl
  | cons p ps ih =>
      obtain ⟨s, b⟩ := p
      simp [parsedArrayMembers, ih, Bind.bind, Except.bind]

/-- C3: equality encoding of `Term::ParsedArray` partitions members into
plain strings and other kinds.  All-string members collapse to a single
`terms` leaf (no boolean wrapper); a string member mixed with a wildcard
member yields a boolean `should` container with exactly two clauses (the
wildcard leaf and a one-string `terms` leaf); and whenever exactly one
clause results it is returned unwrapped. -/
theorem c3_parsed_array (f : QualifiedField) (b bw : Option Rat) (s w : String)
    (ps : List (String × Option Rat)) (hne : ps ≠ []) :
    eq f (Term.ParsedArray (ps.map (fun p => Term.String p.1 p.2)) b)
        = Except.ok (Json.obj [("terms", Json.obj
            [(f.field_name, Json.arr ((ps.map (fun p => p.1)).map Json.str))])])
    ∧ eq f (Term.ParsedArray [Term.String s none, Term.Wildcard w bw] b)
        = Except.ok (Json.obj [("bool", Json.obj [("should", Json.arr
            [Json.obj [("wildcard", Json.obj [(f.field_name,
                Json.obj [("value", Json.str w), ("boost", Json.num (bw.getD 1))])])],
             Json.obj [("terms", Json.obj [(f.field_name, Json.arr [Json.str s])])]])])])
    ∧ eq f (Term.ParsedArray [Term.Wildcard w bw] b) = eq f (Term.Wildcard w bw) := by
  refine ⟨?_, rfl, rfl⟩
  cases ps with
  | nil => exact absurd rfl hne
  | cons p ps =>
      have hm := parsedArrayMembers_strings f (p :: ps)
      simp only [List.map_cons] at hm
      simp [eq, hm, Bind.bind, Except.bind]

/-- Witness for C3 at a concrete input: `ParsedArray([String "a",
String "b"])` collapses to a single `terms` leaf on `{a, b}`. -/
theorem c3_witness :
    eq qf (Term.ParsedArray [Term.String "a" none, Term.String "b" none] none)
        = Except.ok (Json.obj [("terms", Json.obj
            [("f", Json.arr [Json.str "a", Json.str "b"])])]) :=
  (c3_parsed_array qf none none "a" "b" [("a", none), ("b", none)] (by decide)).1

/-- Helper for C10: a successful member scan implies the tail also
scans successfully and the head is not a `Regex` member. -/
theorem parsedArrayMembers_cons_ok (f : QualifiedField) (t : Term) (ts : List Term)
    (res : List String × List Json)
    (h : parsedArrayMembers f (t :: ts) = Except.ok res) :
    (∃ res2, parsedArrayMembers f ts = Except.ok res2)
      ∧ ∀ r br, t ≠ Term.Regex r br := by
  cases t <;> simp only [parsedArrayMembers] at h
  case Null => exact absurd h (by simp)
  case MatchAll => exact absurd h (by simp)
  case Range s e b => exact absurd h (by simp)
  case ParsedArray v b => exact absurd h (by simp)
  case String s b =>
      cases hts : parsedArrayMembers f ts with
      | error m => rw [hts] at h; exact absurd h (by simp [Bind.bind, Except.bind])
      | ok pr => exact ⟨⟨pr, rfl⟩, fun r br hne => Term.noConfusion hne⟩
  case Regex r br =>
      rw [show eq f (Term.Regex r br) = Except.error "unsupported Term" from rfl] at h
      exact absurd h (by simp [Bind.bind, Except.bind])
  all_goals
    cases he : eq f _ with
    | error m => rw [he] at h; exact absurd h (by simp [Bind.bind, Except.bind])
    | ok c =>
        rw [he] at h
        cases hts : parsedArrayMembers f ts with
        | error m => rw [hts] at h; exact absurd h (by simp [Bind.bind, Except.bind])
        | ok pr => exact ⟨⟨pr, rfl⟩, fun r br hne => Term.noConfusion hne⟩

/-- Helper for C10: a member list containing a `Regex` member never
scans successfully. -/
theorem parsedArrayMembers_regex_fails (f : QualifiedField) :
    ∀ (ts : List Term), (∃ r br, Term.Regex r br ∈ ts) →
      ∀ res, parsedArrayMembers f ts ≠ Except.ok res := by
  intro ts
  induction ts with
  | nil => rintro ⟨r, br, h⟩; cases h
  | cons t ts ih =>
      rintro ⟨r, br, h⟩ res hok
      obtain ⟨⟨res2, hres2⟩, hhd⟩ := parsedArrayMembers_cons_ok f t ts res hok
      rcases List.mem_cons.mp h with h1 | h2
      · exact absurd h1.symm (hhd r br)
      · exact ih ⟨r, br, h2⟩ res2 hres2

/-- C10: inside equality encoding of `Term::ParsedArray`, the member
filter rejects `Null`, `MatchAll`, `Range` and nested `ParsedArray`
members with the unsupported-array-member panic; a `Regex` member passes
the filter but the equality encoder has no `Regex` case and aborts with
the unsupported-term panic instead — so a `ParsedArray` containing a
`Regex` member always fails compilation. -/
theorem c10_regex_member_always_fails (f : QualifiedField) (b : Option Rat) :
    eq f (Term.ParsedArray [Term.Null] b) = Except.error "unsupported term in an array"
    ∧ eq f (Term.ParsedArray [Term.MatchAll] b)
        = Except.error "unsupported term in an array"
    ∧ (∀ s e b2, eq f (Term.ParsedArray [Term.Range s e b2] b)
        = Except.error "unsupported term in an array")
    ∧ (∀ v b2, eq f (Term.ParsedArray [Term.ParsedArray v b2] b)
        = Except.error "unsupported term in an array")
    ∧ (∀ r b2, eq f (Term.ParsedArray [Term.Regex r b2] b)
        = Except.error "unsupported Term")
    ∧ (∀ v, (∃ r b2, Term.Regex r b2 ∈ v) →
        ∀ res, eq f (Term.ParsedArray v b) ≠ Except.ok res) := by
  refine ⟨rfl, rfl, fun s e b2 => rfl, fun v b2 => rfl, fun r b2 => rfl, ?_⟩
  intro v hex res hok
  simp only [eq] at hok
  cases hpm : parsedArrayMembers f v with
  | error m => rw [hpm] at hok; exact absurd hok (by simp [Bind.bind, Except.bind])
  | ok pr => exact parsedArrayMembers_regex_fails f v hex pr hpm

/-- Witness for C10 at a concrete input: a one-member array holding a
`Regex` term does not compile to any query. -/
theorem c10_witness :
    eq qf (Term.ParsedArray [Term.Regex "r" none] none)
      ≠ Except.ok (Json.obj [("exists", Json.obj [("field", Json.str "f")])]) :=
  (c10_regex_member_always_fails qf none).2.2.2.2.2 [Term.Regex "r" none]
    ⟨"r", none, List.mem_singleton.mpr rfl⟩
    (Json.obj [("exists", Json.obj [("field", Json.str "f")])])
